import Mathlib

/-!
Verification of the redaction analyzer `analyze_redactions.py`.

The program detects opaque black rectangles ("fake redactions") drawn over
text in a PDF, reconstructs the text hidden under them from the page's
glyph trace and draw-sequence numbers, and can rewrite the document with
only the black boxes removed.

This file gives a shallow embedding of the program.  Python floats are
modelled as rationals (`ℚ`); the comparisons the program performs only
involve decimal literals, which both floats and rationals represent the
same way at the precision used here.  Python strings are modelled as
`String`, and the per-glyph preview text as `List Char` (the program only
ever joins single characters).  Dictionary lookups with a default
(`path.get(k, d)`) are modelled as `Option` plus `getD`.  Exceptions are
modelled with `Except String`, the `String` being the exception message.

Functions of the PyMuPDF library (`fitz`) are external to the repository;
where their behaviour matters they are modelled from the specification's
explicit description and marked `Modelled from the spec:` in their doc
comments.  Everything else is translated directly from
`src/analyze_redactions.py`.
-/

namespace Redact

/-- An axis-aligned rectangle `(x0, y0, x1, y1)` in page coordinates,
modelling `fitz.Rect`. -/
structure Rect where
  x0 : ℚ
  y0 : ℚ
  x1 : ℚ
  y1 : ℚ
deriving DecidableEq

/-- Models `fitz.Rect.width`: horizontal extent `x1 - x0`. -/
def Rect.width (r : Rect) : ℚ := r.x1 - r.x0

/-- Models `fitz.Rect.height`: vertical extent `y1 - y0`. -/
def Rect.height (r : Rect) : ℚ := r.y1 - r.y0

/-- Modelled from the spec: `fitz.Rect.intersects` (library code, not in the
repository).  Two rectangles intersect when their coordinate ranges overlap
on both axes, touching edges counting as intersecting. -/
def Rect.intersects (a b : Rect) : Bool :=
  a.x0 ≤ b.x1 && b.x0 ≤ a.x1 && a.y0 ≤ b.y1 && b.y0 ≤ a.y1

/-- Constant `BLACK_TOLERANCE = 0.05`: treat a fill as black if all components are
at most this. -/
def BLACK_TOLERANCE : ℚ := 0.05

/-- Constant `MIN_RECT_SIZE = 3`: ignore tiny rectangles (rules, dots). -/
def MIN_RECT_SIZE : ℚ := 3

/-- Translation of `_is_black_fill(fill)`: `fill` is `None`, or a list/tuple of color
components; with at least three components the fill is black when each of
the first three is at most `BLACK_TOLERANCE`; anything else is not a black
fill. -/
def is_black_fill : Option (List ℚ) → Bool
  | none => false
  | some (r :: g :: b :: _) =>
      r ≤ BLACK_TOLERANCE && g ≤ BLACK_TOLERANCE && b ≤ BLACK_TOLERANCE
  | some _ => false

/-- One geometric sub-item of a drawing path: either a rectangle primitive
(an item whose tag is `"re"`, carrying its rectangle) or any other item
kind (lines, curves, quads), whose geometry the program never inspects. -/
inductive Item where
  | re (r : Rect)
  | other
deriving DecidableEq

/-- One drawing operation as returned by `page.get_drawings()`: a dict with
optional `type`, `fill_opacity`, `fill` and `seqno` keys and a list of
geometric items. -/
structure DrawOp where
  type : Option String
  fill_opacity : Option ℚ
  fill : Option (List ℚ)
  seqno : Option Int
  items : List Item
deriving DecidableEq

/-- The body of the inner loop of `find_black_rects`: a rectangle item of a
retained path becomes a candidate `(rect, seqno)` unless its width or
height is at most `MIN_RECT_SIZE`. -/
def sizeCandidate (sq : Int) : Item → Option (Rect × Int)
  | .re rect =>
      if rect.width ≤ MIN_RECT_SIZE ∨ rect.height ≤ MIN_RECT_SIZE then none
      else some (rect, sq)
  | .other => none

/-- The per-path body of `find_black_rects`: skip stroke-only paths, paths
whose fill opacity (defaulting to 1) is not 1, and paths whose fill is not
black; otherwise each sufficiently large rectangle item becomes a candidate
carrying the path's sequence number (defaulting to -1). -/
def pathCandidates (path : DrawOp) : List (Rect × Int) :=
  if path.type = some "s" then []
  else if path.fill_opacity.getD 1 ≠ 1 then []
  else if is_black_fill path.fill = false then []
  else path.items.filterMap (sizeCandidate (path.seqno.getD (-1)))

/-- Translation of `find_black_rects(page)`: the concatenation, in drawing order, of every
path's candidates.  The page is represented by its drawing list. -/
def find_black_rects (drawings : List DrawOp) : List (Rect × Int) :=
  (drawings.map pathCandidates).flatten

/-- A path that passes the stroke-only, opacity and fill checks contributes
exactly its size-filtered rectangle items. -/
theorem pathCandidates_retained {path : DrawOp}
    (htype : ¬ path.type = some "s")
    (hop : path.fill_opacity.getD 1 = 1)
    (hfill : is_black_fill path.fill = true) :
    pathCandidates path =
      path.items.filterMap (sizeCandidate (path.seqno.getD (-1))) := by
  unfold pathCandidates
  rw [if_neg htype, hop]
  simp [hfill]

/-- Membership in a path's candidate list forces a rectangle item of that
path with both dimensions above the minimum size, carrying the path's
sequence number. -/
theorem mem_pathCandidates {path : DrawOp} {r : Rect} {s : Int}
    (h : (r, s) ∈ pathCandidates path) :
    Item.re r ∈ path.items ∧ MIN_RECT_SIZE < r.width ∧ MIN_RECT_SIZE < r.height ∧
      s = path.seqno.getD (-1) := by
  unfold pathCandidates at h
  split at h
  · simp at h
  split at h
  · simp at h
  split at h
  · simp at h
  rcases List.mem_filterMap.mp h with ⟨item, hitem, hf⟩
  cases item with
  | other => simp [sizeCandidate] at hf
  | re r0 =>
    simp only [sizeCandidate] at hf
    split at hf
    · exact absurd hf (by simp)
    · rename_i hsz
      push_neg at hsz
      rw [Option.some.injEq, Prod.mk.injEq] at hf
      obtain ⟨rfl, rfl⟩ := hf
      exact ⟨hitem, hsz.1, hsz.2, rfl⟩

/-- C5: a drawing operation whose fill opacity is present and not exactly 1
contributes no candidate at all, whatever its color or geometry. -/
theorem opacity_not_one_yields_no_candidates (path : DrawOp) (q : ℚ)
    (hq : path.fill_opacity = some q) (h1 : q ≠ 1) :
    pathCandidates path = [] := by
  unfold pathCandidates
  split
  · rfl
  · rw [hq]
    simp [h1]

/-- Witness for C5: a fully black, well-sized rectangle drawn at opacity
0.99 is still rejected. -/
theorem opacity_not_one_yields_no_candidates_witness :
    pathCandidates ⟨some "f", some 0.99, some [0, 0, 0], some 7,
        [Item.re ⟨0, 0, 100, 100⟩]⟩ = [] :=
  opacity_not_one_yields_no_candidates _ 0.99 rfl (by norm_num)

/-- C6: for a retained drawing operation (not stroke-only, opacity
defaulting to 1, black fill), a rectangle item yields a candidate exactly
when both its width and its height strictly exceed `MIN_RECT_SIZE = 3`;
width or height at most 3 is excluded. -/
theorem size_threshold_boundary (path : DrawOp) (r : Rect)
    (htype : ¬ path.type = some "s")
    (hop : path.fill_opacity.getD 1 = 1)
    (hfill : is_black_fill path.fill = true)
    (hmem : Item.re r ∈ path.items) :
    (r, path.seqno.getD (-1)) ∈ pathCandidates path ↔
      MIN_RECT_SIZE < r.width ∧ MIN_RECT_SIZE < r.height := by
  constructor
  · intro h
    exact ⟨(mem_pathCandidates h).2.1, (mem_pathCandidates h).2.2.1⟩
  · rintro ⟨hw, hh⟩
    rw [pathCandidates_retained htype hop hfill]
    refine List.mem_filterMap.mpr ⟨Item.re r, hmem, ?_⟩
    simp only [sizeCandidate]
    rw [if_neg (not_or.mpr ⟨not_le.mpr hw, not_le.mpr hh⟩)]

/-- Witness for C6: on a black filled path, the 3.01-by-3.01 rectangle is a
candidate (its width-3 sibling is filtered by the same theorem's
boundary). -/
theorem size_threshold_boundary_witness :
    ((⟨0, 0, 3.01, 3.01⟩, (5 : Int)) ∈ pathCandidates
      ⟨some "f", none, some [0, 0, 0], some 5,
        [Item.re ⟨0, 0, 3, 10⟩, Item.re ⟨0, 0, 3.01, 3.01⟩]⟩) :=
  (size_threshold_boundary
    ⟨some "f", none, some [0, 0, 0], some 5,
      [Item.re ⟨0, 0, 3, 10⟩, Item.re ⟨0, 0, 3.01, 3.01⟩]⟩
    ⟨0, 0, 3.01, 3.01⟩
    (by simp) rfl (by with_unfolding_all decide)
    (by with_unfolding_all decide)).mpr
    (by constructor <;> norm_num [Rect.width, Rect.height, MIN_RECT_SIZE])

/-- C7: a triple fill color is classified near-black exactly when every
component is at most 0.05; `(0.05, 0.05, 0.05)` is near-black and
`(0.06, 0, 0)` is not. -/
theorem black_fill_iff_components_le_tolerance :
    (∀ r g b : ℚ, is_black_fill (some [r, g, b]) = true ↔
        (r ≤ 0.05 ∧ g ≤ 0.05 ∧ b ≤ 0.05)) ∧
      is_black_fill (some [0.05, 0.05, 0.05]) = true ∧
      is_black_fill (some [0.06, 0, 0]) = false := by
  refine ⟨fun r g b => ?_, by with_unfolding_all decide,
    by with_unfolding_all decide⟩
  simp [is_black_fill, BLACK_TOLERANCE, and_assoc]

/-- C9: a drawing operation with no fill-opacity entry passes the opacity
check (the default is 1, fully opaque): with the stroke-only and
black-fill conditions holding, its candidates are exactly those of its
rectangle items that pass the size filter, and they equal the candidates
of the same operation with explicit opacity 1. -/
theorem missing_opacity_defaults_to_one (path : DrawOp)
    (h : path.fill_opacity = none)
    (htype : ¬ path.type = some "s")
    (hfill : is_black_fill path.fill = true) :
    pathCandidates path =
        path.items.filterMap (sizeCandidate (path.seqno.getD (-1))) ∧
      pathCandidates path = pathCandidates { path with fill_opacity := some 1 } := by
  constructor
  · exact pathCandidates_retained htype (by rw [h]; rfl) hfill
  · unfold pathCandidates
    rw [h]
    simp

/-- Witness for C9: a black filled path with no opacity entry yields its
large rectangle as a candidate. -/
theorem missing_opacity_defaults_to_one_witness :
    pathCandidates ⟨some "f", none, some [0, 0, 0], some 5,
        [Item.re ⟨0, 0, 100, 50⟩]⟩ =
      [(⟨0, 0, 100, 50⟩, (5 : Int))] := by
  rw [(missing_opacity_defaults_to_one
    ⟨some "f", none, some [0, 0, 0], some 5, [Item.re ⟨0, 0, 100, 50⟩]⟩
    rfl (by simp) (by with_unfolding_all decide)).1]
  with_unfolding_all decide

/-- One entry of a span's `chars` list in `page.get_texttrace()`: the
character (the source applies `chr` to the unicode value) and its bounding
box; `bbox = none` models a box that `fitz.Rect` fails to convert, which
the source skips. -/
structure SpanChar where
  c : Char
  bbox : Option Rect
deriving DecidableEq

/-- One span of `page.get_texttrace()`: an optional sequence number and a
list of character entries. -/
structure Span where
  seqno : Option Int
  chars : List SpanChar
deriving DecidableEq

/-- A retained glyph record: character, bounding box, draw-sequence
number. -/
structure Glyph where
  char : Char
  bbox : Rect
  seqno : Int
deriving DecidableEq

/-- The character filter of `find_hidden_text`: keep a character when it is
alphanumeric or one of space, `.`, `-`, `_`.  (Python's `str.isalnum` is
Unicode-aware; `Char.isAlphanum` models its behaviour on the ASCII range,
which is all the boundary the claims exercise.) -/
def keepChar (ch : Char) : Bool :=
  ch.isAlphanum || ch = ' ' || ch = '.' || ch = '-' || ch = '_'

/-- The glyph records one span contributes: the span's sequence number
(defaulting to -1) paired with each kept character and its bounding box. -/
def spanGlyphs (span : Span) : List Glyph :=
  span.chars.filterMap fun ci =>
    if keepChar ci.c = false then none
    else
      match ci.bbox with
      | none => none
      | some b => some ⟨ci.c, b, span.seqno.getD (-1)⟩

/-- The `chars` list `find_hidden_text` builds from the whole trace, in
extraction order. -/
def buildChars (trace : List Span) : List Glyph :=
  (trace.map spanGlyphs).flatten

/-- One result dict of `find_hidden_text`: the candidate rectangle, its
sequence number, and the hidden-text preview (absent when no glyph
qualifies). -/
structure HiddenResult where
  rect : Rect
  seqno : Int
  hidden_preview : Option (List Char)
deriving DecidableEq

/-- The per-candidate body of `find_hidden_text`: the characters of the
glyphs whose bounding box intersects the candidate and whose sequence
number is strictly below the candidate's, joined in extraction order;
`none` when there are no such glyphs. -/
def hiddenPreview (chars : List Glyph) (rect : Rect) (rseq : Int) :
    Option (List Char) :=
  let covered :=
    (chars.filter fun g => g.bbox.intersects rect && decide (g.seqno < rseq)).map
      Glyph.char
  if covered = [] then none else some covered

/-- Translation of `find_hidden_text(page, black_rects)`: when the text trace is
unavailable (`page.get_texttrace()` raises, modelled by `none`) every
candidate is reported with no preview; otherwise each candidate gets the
preview computed from the trace's retained glyphs. -/
def find_hidden_text (trace : Option (List Span))
    (black_rects : List (Rect × Int)) : List HiddenResult :=
  match trace with
  | none => black_rects.map fun p => ⟨p.1, p.2, none⟩
  | some spans =>
      let chars := buildChars spans
      black_rects.map fun p => ⟨p.1, p.2, hiddenPreview chars p.1 p.2⟩

/-- The candidate filter of `find_hidden_text` agrees with the spec's
intersection predicate (coordinate ranges overlap on both axes, touching
edges included) conjoined with the strict sequence comparison. -/
theorem coveredPred_eq_spec (g : Glyph) (rect : Rect) (rseq : Int) :
    (g.bbox.intersects rect && decide (g.seqno < rseq)) =
      decide ((g.bbox.x0 ≤ rect.x1 ∧ rect.x0 ≤ g.bbox.x1 ∧
          g.bbox.y0 ≤ rect.y1 ∧ rect.y0 ≤ g.bbox.y1) ∧ g.seqno < rseq) := by
  simp [Rect.intersects, and_assoc, Bool.and_assoc]

/-- C1: for every candidate rectangle, the hidden-text preview consists of
exactly the characters of the retained glyphs whose bounding box intersects
the candidate's rectangle (ranges overlapping on both axes, touching edges
counting) and whose draw-sequence number is strictly below the
candidate's, concatenated in their original extraction order — and it is
absent precisely when no glyph qualifies. -/
theorem hidden_preview_iff_intersecting_earlier_glyphs
    (spans : List Span) (black_rects : List (Rect × Int)) :
    find_hidden_text (some spans) black_rects = black_rects.map fun p =>
      ⟨p.1, p.2,
        let sel := ((buildChars spans).filter fun g =>
          decide ((g.bbox.x0 ≤ p.1.x1 ∧ p.1.x0 ≤ g.bbox.x1 ∧
              g.bbox.y0 ≤ p.1.y1 ∧ p.1.y0 ≤ g.bbox.y1) ∧ g.seqno < p.2)).map
          Glyph.char
        if sel = [] then none else some sel⟩ := by
  unfold find_hidden_text
  refine List.map_congr_left fun p _ => ?_
  simp only [hiddenPreview]
  rw [List.filter_congr fun g _ => coveredPred_eq_spec g p.1 p.2]

/-- Counterexample for C2: with one candidate, the result of analysis when
the glyph trace is unavailable is byte-for-byte the same as the result
when the trace is available but no glyph lies under the candidate — the
degraded mode is not observable in the result. -/
theorem degraded_equals_no_hidden_counterexample :
    find_hidden_text none [(⟨100, 100, 200, 120⟩, 5)] =
      find_hidden_text
        (some [⟨some 9, [⟨'A', some ⟨300, 300, 310, 310⟩⟩]⟩])
        [(⟨100, 100, 200, 120⟩, 5)] := by
  with_unfolding_all decide

/-- C2 as amended: when the text-trace call fails the analysis degrades
gracefully — every candidate is still reported, each with no preview — but
this degraded outcome is identical to, hence indistinguishable from, the
outcome in which the trace was available and no hidden text was found. -/
theorem degraded_trace_graceful_but_indistinguishable
    (black_rects : List (Rect × Int)) :
    find_hidden_text none black_rects =
        black_rects.map (fun p => ⟨p.1, p.2, none⟩) ∧
      find_hidden_text none black_rects =
        find_hidden_text (some []) black_rects := by
  refine ⟨rfl, ?_⟩
  simp [find_hidden_text, buildChars, hiddenPreview]

/-- The state of the document handle opened by `fitz.open`. -/
structure Handle where
  isOpen : Bool
deriving DecidableEq

/-- Models `fitz.open(path)`: a fresh open handle. -/
def openDoc : Handle := ⟨true⟩

/-- Models `doc.close()`. -/
def closeDoc (h : Handle) : Handle := { h with isOpen := false }

/-- Python `try ... finally` over a fallible body: the finalizer runs on
the handle whether the body returned a value or raised. -/
def tryFinally {α : Type} (body : Except String α) (final : Handle → Handle)
    (h : Handle) : Except String α × Handle :=
  match body with
  | .ok a => (.ok a, final h)
  | .error e => (.error e, final h)

/-- A page as `analyze_pdf` consumes it: its 0-based number and the
behaviour of the three page calls the loop makes — `page.get_drawings()`
(raising models a page-level extraction failure), `page.get_texttrace()`
(`none` models the call raising) and `page.get_text()`. -/
structure APage where
  number : Nat
  drawings : Except String (List DrawOp)
  texttrace : Option (List Span)
  text : Except String String

/-- One entry of the report's `pages` list. -/
structure PageAnalysis where
  page : Nat
  black_rects : List (Rect × Int)
  hidden : List HiddenResult
deriving DecidableEq

/-- The analysis report built by `analyze_pdf` (the constant `path` entry
is omitted). -/
structure Report where
  pages : List PageAnalysis
  total_black_rects : Nat
  full_text : List (Nat × String)
deriving DecidableEq

/-- The pure report update one page contributes in `analyze_pdf`'s loop:
append the page's text to `full_text`; when the page has candidates,
append its analysis to `pages` and add its candidate count to the
total. -/
def stepReportCore (rep : Report) (number : Nat) (drawings : List DrawOp)
    (trace : Option (List Span)) (t : String) : Report :=
  let black_rects := find_black_rects drawings
  let hidden := if black_rects = [] then []
    else find_hidden_text trace black_rects
  let rep1 : Report :=
    { rep with full_text := rep.full_text ++ [(number + 1, t)] }
  if black_rects = [] then rep1
  else
    { rep1 with
        pages := rep1.pages ++ [⟨number + 1, black_rects, hidden⟩],
        total_black_rects := rep1.total_black_rects + black_rects.length }

/-- The page loop of `analyze_pdf`.  There is no per-page exception
handling in the source: a raising page call propagates out of the loop.
(The source computes the candidates and hidden text between the two
fallible calls; those computations are total in the model, so gathering
them in `stepReportCore` after the `get_text` result preserves
behaviour.) -/
def analyzeLoop : List APage → Report → Except String Report
  | [], rep => .ok rep
  | p :: rest, rep =>
      match p.drawings with
      | .error e => .error e
      | .ok drawings =>
          match p.text with
          | .error e => .error e
          | .ok t =>
              analyzeLoop rest
                (stepReportCore rep p.number drawings p.texttrace t)

/-- Translation of `analyze_pdf(path)`: open the document, run the page loop inside
`try ... finally doc.close()`, return the report or the propagated
exception together with the final handle state. -/
def analyze_pdf (doc : List APage) : Except String Report × Handle :=
  tryFinally (analyzeLoop doc ⟨[], 0, []⟩) closeDoc openDoc

/-- A page as `remove_black_rects` consumes it: its 0-based number, its
drawing list, and the behaviour of `page.apply_redactions(...)` — `.ok b`
returns the applied flag, `.error e` models the call raising (the claims
place per-page exceptions at this call; the surrounding `except` clause
treats every exception source alike). -/
structure RPage where
  number : Nat
  drawings : List DrawOp
  applyResult : Except String Bool

/-- The warning `remove_black_rects` records when a page reports its
redactions unapplied. -/
def notAppliedMsg (n : Nat) : String :=
  "Page " ++ toString (n + 1) ++ ": redactions may not have been applied"

/-- The `try` body of `remove_black_rects`: mark every candidate rectangle
(`page.add_redact_annot`, one count each), apply the redactions on pages
that have candidates, record a warning when a page reports them
unapplied.  A raised exception carries the counters the `except` clause
observes at that moment. -/
def removeLoop : List RPage → Nat → List String →
    Except (String × Nat × List String) (Nat × List String)
  | [], total, msgs => .ok (total, msgs)
  | p :: rest, total, msgs =>
      if find_black_rects p.drawings = [] then removeLoop rest total msgs
      else
        match p.applyResult with
        | .error e =>
            .error (e, total + (find_black_rects p.drawings).length, msgs)
        | .ok applied =>
            removeLoop rest (total + (find_black_rects p.drawings).length)
              (if applied then msgs else msgs ++ [notAppliedMsg p.number])

/-- Translation of `remove_black_rects(path, output_path)`: run the marking loop and the
save inside `try ... except ... finally doc.close()`; the `except` clause
appends the exception message and the function still returns
`(total_removed, messages)`. -/
def remove_black_rects (pages : List RPage) (saveResult : Except String Unit) :
    (Nat × List String) × Handle :=
  let run : Nat × List String :=
    match removeLoop pages 0 [] with
    | .error (e, total, msgs) => (total, msgs ++ [e])
    | .ok (total, msgs) =>
        match saveResult with
        | .error e => (total, msgs ++ [e])
        | .ok _ => (total, msgs)
  (run, closeDoc openDoc)

/-- Number of redaction annotations `remove_black_rects` adds on one
page. -/
def pageRectCount (p : RPage) : Nat := (find_black_rects p.drawings).length

/-- Number of redaction annotations added across a list of pages. -/
def marksOf (pages : List RPage) : Nat := (pages.map pageRectCount).sum

/-- The warning one page contributes on a clean (non-raising) run. -/
def pageWarning (p : RPage) : Option String :=
  match p.applyResult with
  | .ok false =>
      if find_black_rects p.drawings = [] then none
      else some (notAppliedMsg p.number)
  | _ => none

/-- The warnings a clean run collects over a list of pages. -/
def warningsOf (pages : List RPage) : List String :=
  pages.filterMap pageWarning

/-- A page whose candidate list is empty contributes no warning. -/
theorem pageWarning_of_no_rects {p : RPage}
    (h : find_black_rects p.drawings = []) : pageWarning p = none := by
  unfold pageWarning
  cases hr : p.applyResult with
  | error e => rfl
  | ok b => cases b <;> simp [h]

/-- On pages whose apply call does not raise, the marking loop returns the
accumulated count plus all their marks, and the messages extended by their
warnings. -/
theorem removeLoop_clean (pages : List RPage)
    (h : ∀ p ∈ pages,
      find_black_rects p.drawings = [] ∨ ∃ b, p.applyResult = .ok b) :
    ∀ total msgs, removeLoop pages total msgs =
      .ok (total + marksOf pages, msgs ++ warningsOf pages) := by
  induction pages with
  | nil => intro total msgs; simp [removeLoop, marksOf, warningsOf]
  | cons p rest ih =>
    intro total msgs
    have hrest := fun q hq => h q (List.mem_cons_of_mem _ hq)
    have hcons : marksOf (p :: rest) = pageRectCount p + marksOf rest := by
      simp [marksOf]
    have wcons : warningsOf (p :: rest) =
        (pageWarning p).toList ++ warningsOf rest := by
      simp [warningsOf, List.filterMap_cons]
      cases pageWarning p <;> simp
    unfold removeLoop
    by_cases hnil : find_black_rects p.drawings = []
    · rw [if_pos hnil, ih hrest total msgs, hcons, wcons,
        pageWarning_of_no_rects hnil]
      simp [pageRectCount, hnil]
    · rw [if_neg hnil]
      rcases h p (List.mem_cons_self p rest) with hc | ⟨b, hb⟩
      · exact absurd hc hnil
      rw [hb]
      cases b with
      | true =>
        dsimp only
        rw [if_pos rfl, ih hrest _ msgs, hcons, wcons]
        have : pageWarning p = none := by simp [pageWarning, hb]
        simp [this, pageRectCount, Nat.add_assoc]
      | false =>
        dsimp only
        rw [if_neg Bool.false_ne_true,
          ih hrest _ (msgs ++ [notAppliedMsg p.number]), hcons, wcons]
        have : pageWarning p = some (notAppliedMsg p.number) := by
          simp [pageWarning, hb, hnil]
        simp [this, pageRectCount, Nat.add_assoc]

/-- When the apply call raises on a page with candidates, after clean
pages, the loop stops there: the error carries the marks made so far
(including that page's) and the warnings of the clean pages. -/
theorem removeLoop_fail (p : RPage) (rest : List RPage) (e : String)
    (hp : ¬ find_black_rects p.drawings = [])
    (he : p.applyResult = .error e) :
    ∀ pre : List RPage,
      (∀ q ∈ pre,
        find_black_rects q.drawings = [] ∨ ∃ b, q.applyResult = .ok b) →
      ∀ total msgs, removeLoop (pre ++ p :: rest) total msgs =
        .error (e, total + marksOf pre + pageRectCount p,
          msgs ++ warningsOf pre) := by
  intro pre
  induction pre with
  | nil =>
    intro _ total msgs
    simp only [List.nil_append]
    unfold removeLoop
    rw [if_neg hp, he]
    simp [marksOf, warningsOf, pageRectCount]
  | cons q qs ih =>
    intro h total msgs
    have hqs := fun x hx => h x (List.mem_cons_of_mem _ hx)
    have hcons : marksOf (q :: qs) = pageRectCount q + marksOf qs := by
      simp [marksOf]
    have wcons : warningsOf (q :: qs) =
        (pageWarning q).toList ++ warningsOf qs := by
      simp [warningsOf, List.filterMap_cons]
      cases pageWarning q <;> simp
    simp only [List.cons_append]
    unfold removeLoop
    by_cases hnil : find_black_rects q.drawings = []
    · rw [if_pos hnil, ih hqs total msgs, hcons, wcons,
        pageWarning_of_no_rects hnil]
      simp [pageRectCount, hnil]
    · rw [if_neg hnil]
      rcases h q (List.mem_cons_self q qs) with hc | ⟨b, hb⟩
      · exact absurd hc hnil
      rw [hb]
      cases b with
      | true =>
        dsimp only
        rw [if_pos rfl, ih hqs _ msgs, hcons, wcons]
        have : pageWarning q = none := by simp [pageWarning, hb]
        simp [this, pageRectCount, Nat.add_assoc]
      | false =>
        dsimp only
        rw [if_neg Bool.false_ne_true,
          ih hqs _ (msgs ++ [notAppliedMsg q.number]), hcons, wcons]
        have : pageWarning q = some (notAppliedMsg q.number) := by
          simp [pageWarning, hb, hnil]
        simp [this, pageRectCount, Nat.add_assoc]

/-- C8: both the analysis call and the removal call leave the document
handle closed on every exit path — for every page behaviour, raising or
not, the handle that `fitz.open` produced is closed when the call
returns. -/
theorem handle_closed_on_every_exit :
    (∀ doc : List APage, (analyze_pdf doc).2.isOpen = false) ∧
      ∀ (pages : List RPage) (saveResult : Except String Unit),
        (remove_black_rects pages saveResult).2.isOpen = false := by
  constructor
  · intro doc
    unfold analyze_pdf tryFinally
    cases analyzeLoop doc ⟨[], 0, []⟩ <;> rfl
  · intro pages saveResult
    rfl

/-- After any run of pages whose `get_drawings` and `get_text` calls
succeed, a page whose `get_drawings` raises makes the whole analysis loop
raise: no report survives. -/
theorem analyzeLoop_error_propagates (p : APage) (rest : List APage)
    (e : String) (hp : p.drawings = .error e) :
    ∀ pre : List APage,
      (∀ q ∈ pre, (∃ d, q.drawings = .ok d) ∧ ∃ t, q.text = .ok t) →
      ∀ rep, analyzeLoop (pre ++ p :: rest) rep = .error e := by
  intro pre
  induction pre with
  | nil =>
    intro _ rep
    simp only [List.nil_append]
    unfold analyzeLoop
    rw [hp]
  | cons q qs ih =>
    intro h rep
    obtain ⟨⟨d, hd⟩, t, ht⟩ := h q (List.mem_cons_self q qs)
    have hqs := fun x hx => h x (List.mem_cons_of_mem _ hx)
    simp only [List.cons_append]
    unfold analyzeLoop
    rw [hd]
    dsimp only
    rw [ht]
    exact ih hqs _

/-- Counterexample for C3: a document whose first page's drawing
extraction raises.  The analysis aborts with that exception — the second
page is never reached, its text appears in no best-effort result, and the
failure is not recorded as a warning in any report. -/
theorem page_failure_aborts_analysis_counterexample :
    (analyze_pdf
      [⟨0, .error "boom", none, .ok "page one"⟩,
       ⟨1, .ok [], none, .ok "page two"⟩]).1 = .error "boom" := rfl

/-- C3 as amended: a redaction-not-applied outcome on one page never
aborts the removal operation — it is recorded as a warning, processing
continues to every remaining page and the full count is returned; but a
failure while extracting a page aborts the whole-document analysis: the
exception propagates and no best-effort report is returned. -/
theorem per_page_failure_policy :
    (∀ pages : List RPage,
        (∀ q ∈ pages, ∃ b, q.applyResult = .ok b) →
        remove_black_rects pages (.ok ()) =
          ((marksOf pages, warningsOf pages), closeDoc openDoc)) ∧
      ∀ (pre : List APage) (p : APage) (rest : List APage) (e : String),
        (∀ q ∈ pre, (∃ d, q.drawings = .ok d) ∧ ∃ t, q.text = .ok t) →
        p.drawings = .error e →
        (analyze_pdf (pre ++ p :: rest)).1 = .error e := by
  constructor
  · intro pages h
    unfold remove_black_rects
    rw [removeLoop_clean pages (fun q hq => Or.inr (h q hq)) 0 []]
    simp
  · intro pre p rest e hpre hp
    unfold analyze_pdf
    rw [analyzeLoop_error_propagates p rest e hp pre hpre]
    rfl

/-- Witness for C3 as amended: a not-applied page only warns (removal
still returns the count of both pages' rectangles), while a raising page
aborts the three-page analysis with its exception. -/
theorem per_page_failure_policy_witness :
    remove_black_rects
        [⟨0, [⟨some "f", none, some [0, 0, 0], some 3, [Item.re ⟨0, 0, 10, 10⟩]⟩],
            .ok false⟩,
         ⟨1, [⟨some "f", none, some [0, 0, 0], some 4, [Item.re ⟨0, 0, 20, 20⟩]⟩],
            .ok true⟩] (.ok ()) =
        ((2, [notAppliedMsg 0]), closeDoc openDoc) ∧
      (analyze_pdf
        [⟨0, .ok [], none, .ok "alpha"⟩,
         ⟨1, .error "boom", none, .ok "beta"⟩,
         ⟨2, .ok [], none, .ok "gamma"⟩]).1 = .error "boom" := by
  constructor
  · refine (per_page_failure_policy.1 _ ?_).trans ?_
    · intro q hq
      rcases List.mem_cons.mp hq with h | h
      · subst h; exact ⟨false, rfl⟩
      rcases List.mem_cons.mp h with h | h
      · subst h; exact ⟨true, rfl⟩
      · simp at h
    · with_unfolding_all decide
  · exact per_page_failure_policy.2
      [⟨0, .ok [], none, .ok "alpha"⟩]
      ⟨1, .error "boom", none, .ok "beta"⟩
      [⟨2, .ok [], none, .ok "gamma"⟩] "boom"
      (by
        intro q hq
        rw [List.mem_singleton] at hq
        subst hq
        exact ⟨⟨[], rfl⟩, "alpha", rfl⟩)
      rfl

/-- C10: the removal call always returns the count of annotations added
and the message list.  When applying the redactions raises on a page (the
pages before it being clean), the returned count is exactly the number of
rectangles marked up to and including that page, the exception message is
appended after the clean pages' warnings, and the remaining pages
contribute nothing; when the save raises after a clean run, the count
covers all pages and the save error is appended. -/
theorem removal_returns_count_even_on_failure :
    (∀ (pre rest : List RPage) (p : RPage) (saveResult : Except String Unit)
        (e : String),
      (∀ q ∈ pre,
        find_black_rects q.drawings = [] ∨ ∃ b, q.applyResult = .ok b) →
      ¬ find_black_rects p.drawings = [] →
      p.applyResult = .error e →
      remove_black_rects (pre ++ p :: rest) saveResult =
        ((marksOf pre + pageRectCount p, warningsOf pre ++ [e]),
          closeDoc openDoc)) ∧
      ∀ (pages : List RPage) (e : String),
        (∀ q ∈ pages,
          find_black_rects q.drawings = [] ∨ ∃ b, q.applyResult = .ok b) →
        remove_black_rects pages (.error e) =
          ((marksOf pages, warningsOf pages ++ [e]), closeDoc openDoc) := by
  constructor
  · intro pre rest p saveResult e hpre hp he
    unfold remove_black_rects
    rw [removeLoop_fail p rest e hp he pre hpre 0 []]
    simp
  · intro pages e h
    unfold remove_black_rects
    rw [removeLoop_clean pages h 0 []]
    simp

/-- Witness for C10: with a clean one-rectangle page, then a two-rectangle
page whose apply raises, then a further page, the call returns count 3
(the marks made before the failure) and the exception message; a save
failure after a clean run likewise keeps the count. -/
theorem removal_returns_count_even_on_failure_witness :
    remove_black_rects
        [⟨0, [⟨some "f", none, some [0, 0, 0], some 3, [Item.re ⟨0, 0, 10, 10⟩]⟩],
            .ok true⟩,
         ⟨1, [⟨some "f", none, some [0, 0, 0], some 4,
            [Item.re ⟨0, 0, 20, 20⟩, Item.re ⟨30, 30, 50, 50⟩]⟩], .error "boom"⟩,
         ⟨2, [⟨some "f", none, some [0, 0, 0], some 5, [Item.re ⟨0, 0, 10, 10⟩]⟩],
            .ok true⟩] (.ok ()) = ((3, ["boom"]), closeDoc openDoc) ∧
      remove_black_rects
        [⟨0, [⟨some "f", none, some [0, 0, 0], some 3, [Item.re ⟨0, 0, 10, 10⟩]⟩],
            .ok true⟩] (.error "disk full") =
        ((1, ["disk full"]), closeDoc openDoc) := by
  constructor
  · refine (removal_returns_count_even_on_failure.1
      [⟨0, [⟨some "f", none, some [0, 0, 0], some 3, [Item.re ⟨0, 0, 10, 10⟩]⟩],
          .ok true⟩]
      [⟨2, [⟨some "f", none, some [0, 0, 0], some 5, [Item.re ⟨0, 0, 10, 10⟩]⟩],
          .ok true⟩]
      ⟨1, [⟨some "f", none, some [0, 0, 0], some 4,
          [Item.re ⟨0, 0, 20, 20⟩, Item.re ⟨30, 30, 50, 50⟩]⟩], .error "boom"⟩
      (.ok ()) "boom" ?_ ?_ rfl).trans ?_
    · intro q hq
      rw [List.mem_singleton] at hq
      subst hq
      exact Or.inr ⟨true, rfl⟩
    · with_unfolding_all decide
    · with_unfolding_all decide
  · refine (removal_returns_count_even_on_failure.2 _ "disk full" ?_).trans ?_
    · intro q hq
      rw [List.mem_singleton] at hq
      subst hq
      exact Or.inr ⟨true, rfl⟩
    · with_unfolding_all decide

/-- A page of a document all of whose page calls succeed, for the
round-trip property: number, drawings, glyph trace and extracted text. -/
structure PPage where
  number : Nat
  drawings : List DrawOp
  texttrace : Option (List Span)
  text : String

/-- View an exception-free page as a page behaviour for `analyze_pdf`. -/
def toAPage (p : PPage) : APage :=
  ⟨p.number, .ok p.drawings, p.texttrace, .ok p.text⟩

/-- Whether one geometric item touches any marked region (non-rectangle
line-art items carry no geometry in the model, so they touch nothing). -/
def itemTouches (marked : List Rect) : Item → Bool
  | .re r => marked.any fun m => r.intersects m
  | .other => false

/-- Whether a drawing operation geometrically touches any marked region. -/
def opTouches (op : DrawOp) (marked : List Rect) : Bool :=
  op.items.any (itemTouches marked)

/-- Modelled from the spec: `page.apply_redactions(images=NONE,
graphics=LINE_ART_REMOVE_IF_TOUCHED, text=NONE)` (library code, not in the
repository).  Vector line-art is removed exactly when it touches a marked
region; text and images are untouched, so the page's extracted text and
glyph trace are preserved. -/
def applyRedactions (p : PPage) (marked : List Rect) : PPage :=
  { p with drawings := p.drawings.filter fun op => !opTouches op marked }

/-- The content effect of `remove_black_rects` on one page: every
candidate rectangle is marked via `page.add_redact_annot(rect, fill=False)`
and, when there is at least one, the redactions are applied. -/
def removalPage (p : PPage) : PPage :=
  if (find_black_rects p.drawings).map Prod.fst = [] then p
  else applyRedactions p ((find_black_rects p.drawings).map Prod.fst)

/-- The document `remove_black_rects` saves (`doc.save` with garbage
collection and compression preserves page content; modelled from the
spec's requirement that the output differ from the input only in the
removed drawings). -/
def removalOutput (doc : List PPage) : List PPage := doc.map removalPage

/-- A candidate of the whole page is a candidate of one of its paths. -/
theorem mem_find_black_rects {ds : List DrawOp} {c : Rect × Int} :
    c ∈ find_black_rects ds ↔ ∃ op ∈ ds, c ∈ pathCandidates op := by
  simp [find_black_rects, List.mem_flatten]

/-- A rectangle that passed the size filter intersects itself. -/
theorem rect_intersects_self {r : Rect}
    (hw : MIN_RECT_SIZE < r.width) (hh : MIN_RECT_SIZE < r.height) :
    r.intersects r = true := by
  unfold Rect.width MIN_RECT_SIZE at hw
  unfold Rect.height MIN_RECT_SIZE at hh
  have hx : r.x0 ≤ r.x1 := by linarith
  have hy : r.y0 ≤ r.y1 := by linarith
  simp [Rect.intersects, hx, hy]

/-- After the removal pass, a page has no black-rectangle candidate left:
every operation that contributed a candidate touches its own marked
rectangle and is therefore filtered out. -/
theorem removalPage_no_candidates (p : PPage) :
    find_black_rects (removalPage p).drawings = [] := by
  unfold removalPage
  by_cases hm : (find_black_rects p.drawings).map Prod.fst = []
  · rw [if_pos hm]
    exact List.map_eq_nil_iff.mp hm
  · rw [if_neg hm]
    refine List.eq_nil_iff_forall_not_mem.mpr ?_
    rintro ⟨r, s⟩ hmem
    rw [mem_find_black_rects] at hmem
    obtain ⟨op, hop, hc⟩ := hmem
    rw [applyRedactions, List.mem_filter] at hop
    obtain ⟨hop_mem, hnt⟩ := hop
    have hin : (r, s) ∈ find_black_rects p.drawings :=
      mem_find_black_rects.mpr ⟨op, hop_mem, hc⟩
    have hrm : r ∈ (find_black_rects p.drawings).map Prod.fst :=
      List.mem_map.mpr ⟨(r, s), hin, rfl⟩
    obtain ⟨hitem, hw, hh, _⟩ := mem_pathCandidates hc
    have htouch : opTouches op ((find_black_rects p.drawings).map Prod.fst)
        = true := by
      unfold opTouches
      refine List.any_eq_true.mpr ⟨Item.re r, hitem, ?_⟩
      unfold itemTouches
      exact List.any_eq_true.mpr ⟨r, hrm, rect_intersects_self hw hh⟩
    rw [htouch] at hnt
    simp at hnt

/-- The removal pass changes neither a page's number nor its text. -/
theorem removalPage_preserves_number_text (p : PPage) :
    (removalPage p).number = p.number ∧ (removalPage p).text = p.text := by
  unfold removalPage applyRedactions
  split <;> exact ⟨rfl, rfl⟩

/-- On exception-free pages the analysis loop returns the fold of the
per-page report update. -/
theorem analyzeLoop_pure (doc : List PPage) :
    ∀ rep : Report, analyzeLoop (doc.map toAPage) rep =
      .ok (doc.foldl
        (fun rep p => stepReportCore rep p.number p.drawings p.texttrace p.text)
        rep) := by
  induction doc with
  | nil => intro rep; rfl
  | cons p rest ih =>
    intro rep
    simp only [List.map_cons, List.foldl_cons]
    unfold analyzeLoop
    dsimp only [toAPage]
    exact ih _

/-- One page adds its candidate count to the running total. -/
theorem stepReportCore_total (rep : Report) (number : Nat)
    (drawings : List DrawOp) (trace : Option (List Span)) (t : String) :
    (stepReportCore rep number drawings trace t).total_black_rects =
      rep.total_black_rects + (find_black_rects drawings).length := by
  unfold stepReportCore
  by_cases h : find_black_rects drawings = [] <;> simp [h]

/-- One page appends its text entry to the running `full_text`. -/
theorem stepReportCore_full_text (rep : Report) (number : Nat)
    (drawings : List DrawOp) (trace : Option (List Span)) (t : String) :
    (stepReportCore rep number drawings trace t).full_text =
      rep.full_text ++ [(number + 1, t)] := by
  unfold stepReportCore
  by_cases h : find_black_rects drawings = [] <;> simp [h]

/-- The folded report's total is the sum of the per-page candidate
counts. -/
theorem foldl_total (doc : List PPage) :
    ∀ rep : Report,
      (doc.foldl
        (fun rep p => stepReportCore rep p.number p.drawings p.texttrace p.text)
        rep).total_black_rects =
      rep.total_black_rects +
        (doc.map fun p => (find_black_rects p.drawings).length).sum := by
  induction doc with
  | nil => intro rep; simp
  | cons p rest ih =>
    intro rep
    simp only [List.foldl_cons, List.map_cons, List.sum_cons]
    rw [ih, stepReportCore_total, Nat.add_assoc]

/-- The folded report's `full_text` lists every page's number and text in
order. -/
theorem foldl_full_text (doc : List PPage) :
    ∀ rep : Report,
      (doc.foldl
        (fun rep p => stepReportCore rep p.number p.drawings p.texttrace p.text)
        rep).full_text =
      rep.full_text ++ doc.map fun p => (p.number + 1, p.text) := by
  induction doc with
  | nil => intro rep; simp
  | cons p rest ih =>
    intro rep
    simp only [List.foldl_cons, List.map_cons]
    rw [ih, stepReportCore_full_text, List.append_assoc]
    rfl

/-- C4: running removal and re-analyzing the output yields a report whose
total rectangle count is 0 and whose per-page full text is identical to
the original analysis — all text survives removal, only the black-box
drawings (and line art touching them) are gone. -/
theorem removal_then_analysis_roundtrip (doc : List PPage) :
    ∃ rep orig : Report,
      (analyze_pdf ((removalOutput doc).map toAPage)).1 = .ok rep ∧
      (analyze_pdf (doc.map toAPage)).1 = .ok orig ∧
      rep.total_black_rects = 0 ∧
      rep.full_text = orig.full_text := by
  refine ⟨(removalOutput doc).foldl
      (fun rep p => stepReportCore rep p.number p.drawings p.texttrace p.text)
      ⟨[], 0, []⟩,
    doc.foldl
      (fun rep p => stepReportCore rep p.number p.drawings p.texttrace p.text)
      ⟨[], 0, []⟩, ?_, ?_, ?_, ?_⟩
  · show (tryFinally _ _ _).1 = _
    rw [analyzeLoop_pure (removalOutput doc) ⟨[], 0, []⟩]
    rfl
  · show (tryFinally _ _ _).1 = _
    rw [analyzeLoop_pure doc ⟨[], 0, []⟩]
    rfl
  · rw [foldl_total]
    have hz : ((removalOutput doc).map
        fun p => (find_black_rects p.drawings).length).sum = 0 := by
      refine List.sum_eq_zero ?_
      intro x hx
      rw [List.mem_map] at hx
      obtain ⟨q, hq, hxq⟩ := hx
      rw [removalOutput, List.mem_map] at hq
      obtain ⟨q0, _, hq0⟩ := hq
      subst hq0
      rw [removalPage_no_candidates q0] at hxq
      exact hxq.symm
    rw [hz]
  · rw [foldl_full_text, foldl_full_text]
    unfold removalOutput
    rw [List.map_map]
    refine congrArg _ (List.map_congr_left fun q _ => ?_)
    have h := removalPage_preserves_number_text q
    simp [Function.comp, h.1, h.2]

end Redact
